import Mathlib

/-!
Shallow embedding of the gamma-to-linear conversion module (`src/linear.rs`).

Machine floats (`f64`) are idealized as real numbers; `powf` becomes `Real.rpow`.
Encoded integer components (`u8`, `u16`) are naturals bounded by the encoding's
`max_value` (255 resp. 65535).  Slice indexing `lut[i]`, which panics when out of
bounds, is modelled by `List.get?`, returning `none` on the panic branch.
-/

/-- Real-number model of the premultiplied linear-light pixel `RGBAPLU`
(a struct of four `f32`/`f64` fields r, g, b, a). -/
structure RGBAPLU where
  r : ℝ
  g : ℝ
  b : ℝ
  a : ℝ

/-- The two output shapes of `GammaPixel::to_linear`: the bare-component impl
has `type Output = f64` (a scalar), every other impl has `type Output = RGBAPLU`. -/
inductive LinearOutput where
  | scalar (x : ℝ)
  | tuple (p : RGBAPLU)

/-- Decides whether a `LinearOutput` is the scalar shape. -/
def LinearOutput.isScalar : LinearOutput → Bool
  | .scalar _ => true
  | .tuple _ => false

/-- The free function `to_linear` of `linear.rs`: the sRGB-style
gamma-to-linear transfer function. -/
noncomputable def to_linear (s : ℝ) : ℝ :=
  if s ≤ 0.04045 then
    s / 12.92
  else
    ((s + 0.055) / 1.055) ^ (2.4 : ℝ)

/-- The component lookup `GammaComponent::to_linear` for `u8`/`u16`:
`lut[*self as usize]`, with the out-of-bounds panic modelled as `none`. -/
def GammaComponent.to_linear (v : ℕ) (lut : List ℝ) : Option ℝ :=
  lut[v]?

/-- The default method `GammaPixel::make_lut`:
`(0..max_value+1).map(|i| to_linear(i as f64 / max_value as f64)).collect()`. -/
noncomputable def GammaPixel.make_lut (maxv : ℕ) : List ℝ :=
  (List.range (maxv + 1)).map fun i : ℕ => to_linear ((i : ℝ) / (maxv : ℝ))

/-- The concrete pixel formats for which `linear.rs` implements `GammaPixel`,
as a tagged variant type.  Constructor argument order follows each struct's
field declaration order (`BGRA` stores b, g, r, a; `GreyAlpha` stores the grey
sample then alpha). -/
inductive Pixel where
  | rgba (r g b a : ℕ)
  | bgra (b g r a : ℕ)
  | rgb (r g b : ℕ)
  | bgr (b g r : ℕ)
  | greyAlpha (v a : ℕ)
  | bare (v : ℕ)
  | grey (v : ℕ)

/-- Per-format `GammaPixel::to_linear` dispatch, one arm per `impl` in
`linear.rs`.  `maxv` stands for `M::max_value()`; each arm is a direct
transcription of the corresponding impl body. -/
noncomputable def Pixel.to_linear (maxv : ℕ) (lut : List ℝ) : Pixel → Option LinearOutput
  | .rgba r g b a =>
      let a_unit : ℝ := (a : ℝ) / (maxv : ℝ)
      (GammaComponent.to_linear r lut).bind fun rl =>
      (GammaComponent.to_linear g lut).bind fun gl =>
      (GammaComponent.to_linear b lut).bind fun bl =>
      some (.tuple ⟨rl * a_unit, gl * a_unit, bl * a_unit, a_unit⟩)
  | .bgra b g r a =>
      let a_unit : ℝ := (a : ℝ) / (maxv : ℝ)
      (GammaComponent.to_linear r lut).bind fun rl =>
      (GammaComponent.to_linear g lut).bind fun gl =>
      (GammaComponent.to_linear b lut).bind fun bl =>
      some (.tuple ⟨rl * a_unit, gl * a_unit, bl * a_unit, a_unit⟩)
  | .rgb r g b =>
      (GammaComponent.to_linear r lut).bind fun rl =>
      (GammaComponent.to_linear g lut).bind fun gl =>
      (GammaComponent.to_linear b lut).bind fun bl =>
      some (.tuple ⟨rl, gl, bl, 1⟩)
  | .bgr b g r =>
      (GammaComponent.to_linear r lut).bind fun rl =>
      (GammaComponent.to_linear g lut).bind fun gl =>
      (GammaComponent.to_linear b lut).bind fun bl =>
      some (.tuple ⟨rl, gl, bl, 1⟩)
  | .greyAlpha v a =>
      let a_unit : ℝ := (a : ℝ) / (maxv : ℝ)
      (GammaComponent.to_linear v lut).bind fun gl =>
      some (.tuple ⟨gl * a_unit, gl * a_unit, gl * a_unit, a_unit⟩)
  | .bare v =>
      (GammaComponent.to_linear v lut).bind fun x =>
      some (.scalar x)
  | .grey v =>
      (GammaComponent.to_linear v lut).bind fun gl =>
      some (.tuple ⟨gl, gl, gl, 1⟩)

/-- Batch entry point `ToGLU::to_glu` for `[M]` with `M : GammaPixel<Output=f64>`
(the bare-component formats): build the table once, then map each element;
a per-element panic aborts the whole conversion (`none`). -/
noncomputable def ToGLU.to_glu (maxv : ℕ) (pixels : List ℕ) : Option (List ℝ) :=
  let gamma_lut := GammaPixel.make_lut maxv
  pixels.mapM fun px => GammaComponent.to_linear px gamma_lut

/-- Batch entry point `ToRGBAPLU::to_rgbaplu` for `[P]`: build the table once,
then map each element through the per-pixel linearizer. -/
noncomputable def ToRGBAPLU.to_rgbaplu (maxv : ℕ) (pixels : List Pixel) :
    Option (List LinearOutput) :=
  let gamma_lut := GammaPixel.make_lut maxv
  pixels.mapM fun px => Pixel.to_linear maxv gamma_lut px

theorem make_lut_length (maxv : ℕ) : (GammaPixel.make_lut maxv).length = maxv + 1 := by
  rw [GammaPixel.make_lut, List.length_map, List.length_range]

theorem make_lut_get (maxv i : ℕ) (hi : i ≤ maxv) :
    (GammaPixel.make_lut maxv)[i]? = some (to_linear ((i : ℝ) / (maxv : ℝ))) := by
  rw [GammaPixel.make_lut, List.getElem?_map, List.getElem?_range (Nat.lt_succ_of_le hi)]
  rfl

theorem make_lut_getD (maxv i : ℕ) (hi : i ≤ maxv) :
    (GammaPixel.make_lut maxv).getD i 0 = to_linear ((i : ℝ) / (maxv : ℝ)) := by
  rw [List.getD_eq_getElem?_getD, make_lut_get maxv i hi, Option.getD_some]

theorem lookup_make_lut (maxv i : ℕ) (hi : i ≤ maxv) :
    GammaComponent.to_linear i (GammaPixel.make_lut maxv) =
      some ((GammaPixel.make_lut maxv).getD i 0) := by
  rw [GammaComponent.to_linear, make_lut_get maxv i hi, make_lut_getD maxv i hi]

theorem to_linear_zero : to_linear 0 = 0 := by
  rw [to_linear, if_pos (by norm_num)]
  norm_num

theorem to_linear_one : to_linear 1 = 1 := by
  rw [to_linear, if_neg (by norm_num)]
  rw [show ((1 : ℝ) + 0.055) / 1.055 = 1 by norm_num]
  exact Real.one_rpow _

theorem to_linear_nonneg (s : ℝ) (hs : 0 ≤ s) : 0 ≤ to_linear s := by
  rw [to_linear]
  split
  · positivity
  · positivity

theorem to_linear_threshold :
    (0.04045 : ℝ) / 12.92 ≤ (((0.04045 : ℝ) + 0.055) / 1.055) ^ (2.4 : ℝ) := by
  have ha : (((0.04045 : ℝ) + 0.055) / 1.055) = 1909 / 21100 := by norm_num
  have hb : ((0.04045 : ℝ) / 12.92) = 809 / 258400 := by norm_num
  have h24 : (2.4 : ℝ) = (12 : ℝ) / 5 := by norm_num
  rw [ha, hb, h24]
  have hbase : (0 : ℝ) ≤ 1909 / 21100 := by norm_num
  have hpow : (((1909 / 21100 : ℝ) ^ ((12 : ℝ) / 5)) ^ (5 : ℕ)) =
      (1909 / 21100 : ℝ) ^ (12 : ℕ) := by
    rw [← Real.rpow_natCast ((1909 / 21100 : ℝ) ^ ((12 : ℝ) / 5)) 5,
      ← Real.rpow_mul hbase]
    rw [show ((12 : ℝ) / 5 * (5 : ℕ) : ℝ) = ((12 : ℕ) : ℝ) by norm_num,
      Real.rpow_natCast]
  have h5 : ((809 / 258400 : ℝ)) ^ (5 : ℕ) ≤
      (((1909 / 21100 : ℝ) ^ ((12 : ℝ) / 5)) ^ (5 : ℕ)) := by
    rw [hpow]
    norm_num
  exact le_of_pow_le_pow_left₀ (by norm_num) (Real.rpow_nonneg hbase _) h5

theorem to_linear_mono (s t : ℝ) (hs : 0 ≤ s) (hst : s ≤ t) :
    to_linear s ≤ to_linear t := by
  rw [to_linear, to_linear]
  split_ifs with h1 h2 h2
  · exact div_le_div_of_nonneg_right hst (by norm_num) |>.trans_eq rfl
  · calc s / 12.92 ≤ (0.04045 : ℝ) / 12.92 := by
          exact div_le_div_of_nonneg_right h1 (by norm_num)
      _ ≤ (((0.04045 : ℝ) + 0.055) / 1.055) ^ (2.4 : ℝ) := to_linear_threshold
      _ ≤ ((t + 0.055) / 1.055) ^ (2.4 : ℝ) := by
          apply Real.rpow_le_rpow (by norm_num) _ (by norm_num)
          apply div_le_div_of_nonneg_right _ (by norm_num)
          linarith
  · exact absurd (hst.trans h2) h1
  · apply Real.rpow_le_rpow _ _ (by norm_num)
    · positivity
    · apply div_le_div_of_nonneg_right _ (by norm_num)
      linarith

/-- C1: for every component encoding with maximum representable value M in
{255, 65535}, `make_lut` produces a table of exactly M+1 entries, and for
every index i in [0, M], entry i equals f(i/M) where f is the piecewise
transfer function f(s) = s/12.92 when s ≤ 0.04045 and
f(s) = ((s + 0.055)/1.055)^2.4 otherwise. -/
theorem make_lut_entry_values (M : ℕ) (_hM : M = 255 ∨ M = 65535) :
    (GammaPixel.make_lut M).length = M + 1 ∧
    ∀ i : ℕ, i ≤ M → (GammaPixel.make_lut M)[i]? =
      some (if ((i : ℝ) / (M : ℝ)) ≤ 0.04045 then ((i : ℝ) / (M : ℝ)) / 12.92
            else ((((i : ℝ) / (M : ℝ)) + 0.055) / 1.055) ^ (2.4 : ℝ)) := by
  refine ⟨make_lut_length M, fun i hi => ?_⟩
  rw [make_lut_get M i hi, to_linear]

theorem make_lut_entry_values_witness :
    ((255 : ℕ) = 255 ∨ (255 : ℕ) = 65535) ∧
    ((GammaPixel.make_lut 255).length = 255 + 1 ∧
     ∀ i : ℕ, i ≤ 255 → (GammaPixel.make_lut 255)[i]? =
       some (if ((i : ℝ) / ((255 : ℕ) : ℝ)) ≤ 0.04045 then
               ((i : ℝ) / ((255 : ℕ) : ℝ)) / 12.92
             else ((((i : ℝ) / ((255 : ℕ) : ℝ)) + 0.055) / 1.055) ^ (2.4 : ℝ))) :=
  ⟨Or.inl rfl, make_lut_entry_values 255 (Or.inl rfl)⟩

/-- C2: for every bit depth d in {8, 16}, the table generated by `make_lut`
has length 2^d, its entry at index 0 equals 0.0, its entry at index 2^d - 1
equals 1.0, and its entries are monotonically non-decreasing in the index. -/
theorem make_lut_depth_invariants (d : ℕ) (hd : d = 8 ∨ d = 16) :
    (GammaPixel.make_lut (2 ^ d - 1)).length = 2 ^ d ∧
    (GammaPixel.make_lut (2 ^ d - 1)).getD 0 0 = 0 ∧
    (GammaPixel.make_lut (2 ^ d - 1)).getD (2 ^ d - 1) 0 = 1 ∧
    ∀ i j : ℕ, i ≤ j → j ≤ 2 ^ d - 1 →
      (GammaPixel.make_lut (2 ^ d - 1)).getD i 0 ≤
        (GammaPixel.make_lut (2 ^ d - 1)).getD j 0 := by
  have hpos : 0 < 2 ^ d - 1 := by rcases hd with h | h <;> subst h <;> norm_num
  have hcast : (0 : ℝ) < ((2 ^ d - 1 : ℕ) : ℝ) := by exact_mod_cast hpos
  refine ⟨?_, ?_, ?_, ?_⟩
  · rw [make_lut_length]; omega
  · rw [make_lut_getD _ 0 (Nat.zero_le _), Nat.cast_zero, zero_div, to_linear_zero]
  · rw [make_lut_getD _ _ le_rfl, div_self (ne_of_gt hcast), to_linear_one]
  · intro i j hij hj
    rw [make_lut_getD _ i (hij.trans hj), make_lut_getD _ j hj]
    exact to_linear_mono _ _ (by positivity)
      (div_le_div_of_nonneg_right (by exact_mod_cast hij) hcast.le)

theorem make_lut_depth_invariants_witness :
    ((8 : ℕ) = 8 ∨ (8 : ℕ) = 16) ∧
    ((GammaPixel.make_lut (2 ^ 8 - 1)).length = 2 ^ 8 ∧
     (GammaPixel.make_lut (2 ^ 8 - 1)).getD 0 0 = 0 ∧
     (GammaPixel.make_lut (2 ^ 8 - 1)).getD (2 ^ 8 - 1) 0 = 1 ∧
     ∀ i j : ℕ, i ≤ j → j ≤ 2 ^ 8 - 1 →
       (GammaPixel.make_lut (2 ^ 8 - 1)).getD i 0 ≤
         (GammaPixel.make_lut (2 ^ 8 - 1)).getD j 0) :=
  ⟨Or.inl rfl, make_lut_depth_invariants 8 (Or.inl rfl)⟩

/-- C10: for every component value of the u8 or u16 encoding (bounded by the
encoding's max_value) and the table built by `make_lut` for that encoding, the
table has length max_value + 1, the index is strictly in bounds, and the
component lookup succeeds (the out-of-range/panic branch is unreachable). -/
theorem lut_index_in_bounds (maxv v : ℕ) (_hM : maxv = 255 ∨ maxv = 65535)
    (hv : v ≤ maxv) :
    (GammaPixel.make_lut maxv).length = maxv + 1 ∧
    v < (GammaPixel.make_lut maxv).length ∧
    (GammaComponent.to_linear v (GammaPixel.make_lut maxv)).isSome = true := by
  refine ⟨make_lut_length maxv, ?_, ?_⟩
  · rw [make_lut_length]; omega
  · rw [GammaComponent.to_linear, make_lut_get maxv v hv]; rfl

theorem lut_index_in_bounds_witness :
    ((255 : ℕ) = 255 ∨ (255 : ℕ) = 65535) ∧ (255 : ℕ) ≤ 255 ∧
    ((GammaPixel.make_lut 255).length = 255 + 1 ∧
     255 < (GammaPixel.make_lut 255).length ∧
     (GammaComponent.to_linear 255 (GammaPixel.make_lut 255)).isSome = true) :=
  ⟨Or.inl rfl, le_refl 255, lut_index_in_bounds 255 255 (Or.inl rfl) (le_refl 255)⟩

/-- C3: for every 4-channel pixel with alpha (RGBA or BGRA ordering) with
in-range components r, g, b, a and component maximum maxv, and the table built
by `make_lut` for that encoding, the linearizer outputs alpha field a/maxv and
each color field equal to table[channel] * (a/maxv), routed to the canonical
red/green/blue output fields. -/
theorem rgba_bgra_premultiply (maxv r g b a : ℕ)
    (hr : r ≤ maxv) (hg : g ≤ maxv) (hb : b ≤ maxv) (_ha : a ≤ maxv) :
    Pixel.to_linear maxv (GammaPixel.make_lut maxv) (.rgba r g b a) =
      some (.tuple ⟨(GammaPixel.make_lut maxv).getD r 0 * ((a : ℝ) / (maxv : ℝ)),
                    (GammaPixel.make_lut maxv).getD g 0 * ((a : ℝ) / (maxv : ℝ)),
                    (GammaPixel.make_lut maxv).getD b 0 * ((a : ℝ) / (maxv : ℝ)),
                    (a : ℝ) / (maxv : ℝ)⟩) ∧
    Pixel.to_linear maxv (GammaPixel.make_lut maxv) (.bgra b g r a) =
      some (.tuple ⟨(GammaPixel.make_lut maxv).getD r 0 * ((a : ℝ) / (maxv : ℝ)),
                    (GammaPixel.make_lut maxv).getD g 0 * ((a : ℝ) / (maxv : ℝ)),
                    (GammaPixel.make_lut maxv).getD b 0 * ((a : ℝ) / (maxv : ℝ)),
                    (a : ℝ) / (maxv : ℝ)⟩) := by
  constructor <;>
    simp only [Pixel.to_linear, lookup_make_lut maxv r hr, lookup_make_lut maxv g hg,
      lookup_make_lut maxv b hb, Option.some_bind]

theorem rgba_bgra_premultiply_witness :
    ((1 : ℕ) ≤ 255 ∧ (2 : ℕ) ≤ 255 ∧ (3 : ℕ) ≤ 255 ∧ (128 : ℕ) ≤ 255) ∧
    (Pixel.to_linear 255 (GammaPixel.make_lut 255) (.rgba 1 2 3 128) =
      some (.tuple ⟨(GammaPixel.make_lut 255).getD 1 0 * (((128 : ℕ) : ℝ) / ((255 : ℕ) : ℝ)),
                    (GammaPixel.make_lut 255).getD 2 0 * (((128 : ℕ) : ℝ) / ((255 : ℕ) : ℝ)),
                    (GammaPixel.make_lut 255).getD 3 0 * (((128 : ℕ) : ℝ) / ((255 : ℕ) : ℝ)),
                    ((128 : ℕ) : ℝ) / ((255 : ℕ) : ℝ)⟩) ∧
     Pixel.to_linear 255 (GammaPixel.make_lut 255) (.bgra 3 2 1 128) =
      some (.tuple ⟨(GammaPixel.make_lut 255).getD 1 0 * (((128 : ℕ) : ℝ) / ((255 : ℕ) : ℝ)),
                    (GammaPixel.make_lut 255).getD 2 0 * (((128 : ℕ) : ℝ) / ((255 : ℕ) : ℝ)),
                    (GammaPixel.make_lut 255).getD 3 0 * (((128 : ℕ) : ℝ) / ((255 : ℕ) : ℝ)),
                    ((128 : ℕ) : ℝ) / ((255 : ℕ) : ℝ)⟩)) :=
  ⟨⟨by decide, by decide, by decide, by decide⟩,
   rgba_bgra_premultiply 255 1 2 3 128 (by decide) (by decide) (by decide) (by decide)⟩

/-- C4: for every grayscale-with-alpha pixel with in-range gray component v,
alpha component a, and component maximum maxv, and the table built by
`make_lut` for that encoding, the linearizer outputs a 4-tuple whose red,
green, and blue fields all equal table[v] * (a/maxv) and whose alpha field
equals a/maxv. -/
theorem grey_alpha_premultiply (maxv v a : ℕ) (hv : v ≤ maxv) (_ha : a ≤ maxv) :
    Pixel.to_linear maxv (GammaPixel.make_lut maxv) (.greyAlpha v a) =
      some (.tuple ⟨(GammaPixel.make_lut maxv).getD v 0 * ((a : ℝ) / (maxv : ℝ)),
                    (GammaPixel.make_lut maxv).getD v 0 * ((a : ℝ) / (maxv : ℝ)),
                    (GammaPixel.make_lut maxv).getD v 0 * ((a : ℝ) / (maxv : ℝ)),
                    (a : ℝ) / (maxv : ℝ)⟩) := by
  simp only [Pixel.to_linear, lookup_make_lut maxv v hv, Option.some_bind]

theorem grey_alpha_premultiply_witness :
    ((7 : ℕ) ≤ 255 ∧ (9 : ℕ) ≤ 255) ∧
    Pixel.to_linear 255 (GammaPixel.make_lut 255) (.greyAlpha 7 9) =
      some (.tuple ⟨(GammaPixel.make_lut 255).getD 7 0 * (((9 : ℕ) : ℝ) / ((255 : ℕ) : ℝ)),
                    (GammaPixel.make_lut 255).getD 7 0 * (((9 : ℕ) : ℝ) / ((255 : ℕ) : ℝ)),
                    (GammaPixel.make_lut 255).getD 7 0 * (((9 : ℕ) : ℝ) / ((255 : ℕ) : ℝ)),
                    ((9 : ℕ) : ℝ) / ((255 : ℕ) : ℝ)⟩) :=
  ⟨⟨by decide, by decide⟩, grey_alpha_premultiply 255 7 9 (by decide) (by decide)⟩

/-- C6: for every source pixel of a format without an alpha channel (RGB, BGR,
or grayscale Grey) with in-range components and a matching `make_lut` table,
the 4-tuple output has alpha field exactly 1.0 and each color field equal to
the unpremultiplied per-channel table lookup; when the source is grayscale the
red, green, and blue output fields are all equal. -/
theorem no_alpha_opaque (maxv r g b v : ℕ)
    (hr : r ≤ maxv) (hg : g ≤ maxv) (hb : b ≤ maxv) (hv : v ≤ maxv) :
    Pixel.to_linear maxv (GammaPixel.make_lut maxv) (.rgb r g b) =
      some (.tuple ⟨(GammaPixel.make_lut maxv).getD r 0,
                    (GammaPixel.make_lut maxv).getD g 0,
                    (GammaPixel.make_lut maxv).getD b 0, 1⟩) ∧
    Pixel.to_linear maxv (GammaPixel.make_lut maxv) (.bgr b g r) =
      some (.tuple ⟨(GammaPixel.make_lut maxv).getD r 0,
                    (GammaPixel.make_lut maxv).getD g 0,
                    (GammaPixel.make_lut maxv).getD b 0, 1⟩) ∧
    Pixel.to_linear maxv (GammaPixel.make_lut maxv) (.grey v) =
      some (.tuple ⟨(GammaPixel.make_lut maxv).getD v 0,
                    (GammaPixel.make_lut maxv).getD v 0,
                    (GammaPixel.make_lut maxv).getD v 0, 1⟩) := by
  refine ⟨?_, ?_, ?_⟩ <;>
    simp only [Pixel.to_linear, lookup_make_lut maxv r hr, lookup_make_lut maxv g hg,
      lookup_make_lut maxv b hb, lookup_make_lut maxv v hv, Option.some_bind]

theorem no_alpha_opaque_witness :
    ((10 : ℕ) ≤ 255 ∧ (20 : ℕ) ≤ 255 ∧ (30 : ℕ) ≤ 255 ∧ (40 : ℕ) ≤ 255) ∧
    (Pixel.to_linear 255 (GammaPixel.make_lut 255) (.rgb 10 20 30) =
      some (.tuple ⟨(GammaPixel.make_lut 255).getD 10 0,
                    (GammaPixel.make_lut 255).getD 20 0,
                    (GammaPixel.make_lut 255).getD 30 0, 1⟩) ∧
     Pixel.to_linear 255 (GammaPixel.make_lut 255) (.bgr 30 20 10) =
      some (.tuple ⟨(GammaPixel.make_lut 255).getD 10 0,
                    (GammaPixel.make_lut 255).getD 20 0,
                    (GammaPixel.make_lut 255).getD 30 0, 1⟩) ∧
     Pixel.to_linear 255 (GammaPixel.make_lut 255) (.grey 40) =
      some (.tuple ⟨(GammaPixel.make_lut 255).getD 40 0,
                    (GammaPixel.make_lut 255).getD 40 0,
                    (GammaPixel.make_lut 255).getD 40 0, 1⟩)) :=
  ⟨⟨by decide, by decide, by decide, by decide⟩,
   no_alpha_opaque 255 10 20 30 40 (by decide) (by decide) (by decide) (by decide)⟩

/-- C7: for every choice of component values r, g, b (and a, when present) and
every table, linearizing an RGBA pixel and a BGRA pixel carrying the same red,
green, blue, alpha values produce identical canonical outputs, and likewise
RGB versus BGR: channel ordering does not affect the numeric result. -/
theorem channel_order_independent (maxv : ℕ) (lut : List ℝ) (r g b a : ℕ) :
    Pixel.to_linear maxv lut (.rgba r g b a) = Pixel.to_linear maxv lut (.bgra b g r a) ∧
    Pixel.to_linear maxv lut (.rgb r g b) = Pixel.to_linear maxv lut (.bgr b g r) :=
  ⟨rfl, rfl⟩

/-- C8: for every pixel of an alpha-carrying format (RGBA, BGRA, or
grayscale+alpha) whose encoded alpha component equals 0 and whose color
components are in range, with the matching `make_lut` table, all three color
fields of the premultiplied output equal 0.0. -/
theorem transparent_alpha_zero (maxv r g b v : ℕ)
    (hr : r ≤ maxv) (hg : g ≤ maxv) (hb : b ≤ maxv) (hv : v ≤ maxv) :
    (∃ t : RGBAPLU, Pixel.to_linear maxv (GammaPixel.make_lut maxv) (.rgba r g b 0) =
        some (.tuple t) ∧ t.r = 0 ∧ t.g = 0 ∧ t.b = 0) ∧
    (∃ t : RGBAPLU, Pixel.to_linear maxv (GammaPixel.make_lut maxv) (.bgra b g r 0) =
        some (.tuple t) ∧ t.r = 0 ∧ t.g = 0 ∧ t.b = 0) ∧
    (∃ t : RGBAPLU, Pixel.to_linear maxv (GammaPixel.make_lut maxv) (.greyAlpha v 0) =
        some (.tuple t) ∧ t.r = 0 ∧ t.g = 0 ∧ t.b = 0) := by
  have h0 : ((0 : ℕ) : ℝ) / (maxv : ℝ) = 0 := by norm_num
  refine ⟨⟨⟨0, 0, 0, 0⟩, ?_, rfl, rfl, rfl⟩,
          ⟨⟨0, 0, 0, 0⟩, ?_, rfl, rfl, rfl⟩,
          ⟨⟨0, 0, 0, 0⟩, ?_, rfl, rfl, rfl⟩⟩ <;>
    simp only [Pixel.to_linear, lookup_make_lut maxv r hr, lookup_make_lut maxv g hg,
      lookup_make_lut maxv b hb, lookup_make_lut maxv v hv, Option.some_bind,
      h0, mul_zero]

theorem transparent_alpha_zero_witness :
    ((255 : ℕ) ≤ 255 ∧ (17 : ℕ) ≤ 255 ∧ (99 : ℕ) ≤ 255 ∧ (1 : ℕ) ≤ 255) ∧
    ((∃ t : RGBAPLU, Pixel.to_linear 255 (GammaPixel.make_lut 255) (.rgba 255 17 99 0) =
        some (.tuple t) ∧ t.r = 0 ∧ t.g = 0 ∧ t.b = 0) ∧
     (∃ t : RGBAPLU, Pixel.to_linear 255 (GammaPixel.make_lut 255) (.bgra 99 17 255 0) =
        some (.tuple t) ∧ t.r = 0 ∧ t.g = 0 ∧ t.b = 0) ∧
     (∃ t : RGBAPLU, Pixel.to_linear 255 (GammaPixel.make_lut 255) (.greyAlpha 1 0) =
        some (.tuple t) ∧ t.r = 0 ∧ t.g = 0 ∧ t.b = 0)) :=
  ⟨⟨by decide, by decide, by decide, by decide⟩,
   transparent_alpha_zero 255 255 17 99 1 (by decide) (by decide) (by decide) (by decide)⟩

/-- C5 counterexample: the grayscale-without-alpha format (`lodepng::Grey`)
refutes the claim that every single-component no-alpha pixel linearizes to a
Linear Scalar — linearizing the 8-bit grey value 0 yields the 4-tuple
(0, 0, 0, 1), not a scalar. -/
theorem grey_produces_tuple_cex :
    Pixel.to_linear 255 (GammaPixel.make_lut 255) (.grey 0) =
      some (.tuple ⟨0, 0, 0, 1⟩) ∧
    Option.map LinearOutput.isScalar
      (Pixel.to_linear 255 (GammaPixel.make_lut 255) (.grey 0)) = some false := by
  have h0 : (GammaPixel.make_lut 255).getD 0 0 = 0 := by
    rw [make_lut_getD 255 0 (Nat.zero_le _), Nat.cast_zero, zero_div, to_linear_zero]
  refine ⟨?_, ?_⟩ <;>
    simp only [Pixel.to_linear, lookup_make_lut 255 0 (Nat.zero_le _), h0,
      Option.some_bind]
  rfl

/-- C5 (amended): for every bare numeric sample with in-range value v and the
matching `make_lut` table, linearization returns the Linear Scalar table[v],
and the bare-sample case is the only pixel variant whose linearization
produces a scalar rather than a 4-tuple; grayscale `Grey` without alpha
instead produces a 4-tuple. -/
theorem bare_scalar_only (maxv v : ℕ) (hv : v ≤ maxv) :
    Pixel.to_linear maxv (GammaPixel.make_lut maxv) (.bare v) =
      some (.scalar ((GammaPixel.make_lut maxv).getD v 0)) ∧
    ∀ (px : Pixel) (out : LinearOutput),
      Pixel.to_linear maxv (GammaPixel.make_lut maxv) px = some out →
      out.isScalar = true → ∃ w : ℕ, px = .bare w := by
  constructor
  · simp only [Pixel.to_linear, lookup_make_lut maxv v hv, Option.some_bind]
  · intro px out hpx hscalar
    cases px with
    | bare w => exact ⟨w, rfl⟩
    | rgba r g b a =>
        simp only [Pixel.to_linear] at hpx
        obtain ⟨rl, hrl, hpx⟩ := Option.bind_eq_some.mp hpx
        obtain ⟨gl, hgl, hpx⟩ := Option.bind_eq_some.mp hpx
        obtain ⟨bl, hbl, hpx⟩ := Option.bind_eq_some.mp hpx
        obtain rfl := Option.some.inj hpx
        simp [LinearOutput.isScalar] at hscalar
    | bgra b g r a =>
        simp only [Pixel.to_linear] at hpx
        obtain ⟨rl, hrl, hpx⟩ := Option.bind_eq_some.mp hpx
        obtain ⟨gl, hgl, hpx⟩ := Option.bind_eq_some.mp hpx
        obtain ⟨bl, hbl, hpx⟩ := Option.bind_eq_some.mp hpx
        obtain rfl := Option.some.inj hpx
        simp [LinearOutput.isScalar] at hscalar
    | rgb r g b =>
        simp only [Pixel.to_linear] at hpx
        obtain ⟨rl, hrl, hpx⟩ := Option.bind_eq_some.mp hpx
        obtain ⟨gl, hgl, hpx⟩ := Option.bind_eq_some.mp hpx
        obtain ⟨bl, hbl, hpx⟩ := Option.bind_eq_some.mp hpx
        obtain rfl := Option.some.inj hpx
        simp [LinearOutput.isScalar] at hscalar
    | bgr b g r =>
        simp only [Pixel.to_linear] at hpx
        obtain ⟨rl, hrl, hpx⟩ := Option.bind_eq_some.mp hpx
        obtain ⟨gl, hgl, hpx⟩ := Option.bind_eq_some.mp hpx
        obtain ⟨bl, hbl, hpx⟩ := Option.bind_eq_some.mp hpx
        obtain rfl := Option.some.inj hpx
        simp [LinearOutput.isScalar] at hscalar
    | greyAlpha w a =>
        simp only [Pixel.to_linear] at hpx
        obtain ⟨gl, hgl, hpx⟩ := Option.bind_eq_some.mp hpx
        obtain rfl := Option.some.inj hpx
        simp [LinearOutput.isScalar] at hscalar
    | grey w =>
        simp only [Pixel.to_linear] at hpx
        obtain ⟨gl, hgl, hpx⟩ := Option.bind_eq_some.mp hpx
        obtain rfl := Option.some.inj hpx
        simp [LinearOutput.isScalar] at hscalar

theorem bare_scalar_only_witness :
    (5 : ℕ) ≤ 255 ∧
    (Pixel.to_linear 255 (GammaPixel.make_lut 255) (.bare 5) =
      some (.scalar ((GammaPixel.make_lut 255).getD 5 0)) ∧
     ∀ (px : Pixel) (out : LinearOutput),
       Pixel.to_linear 255 (GammaPixel.make_lut 255) px = some out →
       out.isScalar = true → ∃ w : ℕ, px = .bare w) :=
  ⟨by decide, bare_scalar_only 255 5 (by decide)⟩

theorem mapM_option_length_get {α β : Type} (f : α → Option β) :
    ∀ l : List α, (∀ x ∈ l, (f x).isSome = true) →
      ∃ out : List β, l.mapM f = some out ∧ out.length = l.length ∧
        ∀ (i : ℕ) (h1 : i < l.length) (h2 : i < out.length),
          f (l.get ⟨i, h1⟩) = some (out.get ⟨i, h2⟩)
  | [], _ =>
      ⟨[], by rw [← List.mapM'_eq_mapM]; rfl, rfl, fun i h1 h2 => absurd h1 (by simp)⟩
  | x :: xs, h => by
      obtain ⟨y, hy⟩ := Option.isSome_iff_exists.mp (h x (by simp))
      obtain ⟨out, hout, hlen, hget⟩ :=
        mapM_option_length_get f xs (fun z hz => h z (by simp [hz]))
      refine ⟨y :: out, ?_, by simp [hlen], ?_⟩
      · rw [← List.mapM'_eq_mapM] at hout ⊢
        simp [hy, hout]
      · intro i h1 h2
        cases i with
        | zero => simpa using hy
        | succ n =>
            simpa using hget n (by simpa using h1) (by simpa using h2)

/-- C9: for every input sequence of pixels of one supported format whose
per-element conversion succeeds, including the empty sequence, the batch entry
points `to_glu` (scalar output) and `to_rgbaplu` (4-tuple output) return an
output sequence of exactly the same length, where the element at each position
i is the per-pixel linearization of the input element at position i through
the table built once by `make_lut` for that format's component encoding. -/
theorem batch_elementwise (maxv : ℕ) (comps : List ℕ) (pixels : List Pixel)
    (hc : ∀ c ∈ comps, c ≤ maxv)
    (hp : ∀ px ∈ pixels,
      (Pixel.to_linear maxv (GammaPixel.make_lut maxv) px).isSome = true) :
    (∃ out : List ℝ, ToGLU.to_glu maxv comps = some out ∧
      out.length = comps.length ∧
      ∀ (i : ℕ) (h1 : i < comps.length) (h2 : i < out.length),
        GammaComponent.to_linear (comps.get ⟨i, h1⟩) (GammaPixel.make_lut maxv) =
          some (out.get ⟨i, h2⟩)) ∧
    (∃ out : List LinearOutput, ToRGBAPLU.to_rgbaplu maxv pixels = some out ∧
      out.length = pixels.length ∧
      ∀ (i : ℕ) (h1 : i < pixels.length) (h2 : i < out.length),
        Pixel.to_linear maxv (GammaPixel.make_lut maxv) (pixels.get ⟨i, h1⟩) =
          some (out.get ⟨i, h2⟩)) := by
  constructor
  · apply mapM_option_length_get
    intro c hcin
    rw [GammaComponent.to_linear, make_lut_get maxv c (hc c hcin)]
    rfl
  · exact mapM_option_length_get _ _ hp

theorem batch_elementwise_witness :
    (∀ c ∈ [(0 : ℕ), 255], c ≤ 255) ∧
    (∀ px ∈ ([] : List Pixel),
      (Pixel.to_linear 255 (GammaPixel.make_lut 255) px).isSome = true) ∧
    ((∃ out : List ℝ, ToGLU.to_glu 255 [0, 255] = some out ∧
       out.length = [(0 : ℕ), 255].length ∧
       ∀ (i : ℕ) (h1 : i < [(0 : ℕ), 255].length) (h2 : i < out.length),
         GammaComponent.to_linear ([(0 : ℕ), 255].get ⟨i, h1⟩) (GammaPixel.make_lut 255) =
           some (out.get ⟨i, h2⟩)) ∧
     (∃ out : List LinearOutput, ToRGBAPLU.to_rgbaplu 255 [] = some out ∧
       out.length = ([] : List Pixel).length ∧
       ∀ (i : ℕ) (h1 : i < ([] : List Pixel).length) (h2 : i < out.length),
         Pixel.to_linear 255 (GammaPixel.make_lut 255) (([] : List Pixel).get ⟨i, h1⟩) =
           some (out.get ⟨i, h2⟩))) :=
  ⟨by decide, by simp, batch_elementwise 255 [0, 255] [] (by decide) (by simp)⟩
